import Mathlib

/-!
Shallow embedding of the `remindme` repository's persistent playback
scheduler (src/app/app.go and src/app/db.go) and proofs about it.

The storage engine (bbolt) is not part of the repository's sources; it is
consumed through the contract stated in the specification: a bucket maps
byte-string keys to values, puts are upserts, deletes of absent keys
succeed, and cursor iteration yields keys in lexicographic byte order.
A bucket is therefore modelled as an association list kept sorted by key,
so that the list order IS the cursor's iteration order.
-/

namespace RemindMe

/-! ### Lexicographic key order (model of bbolt's byte-wise key order) -/

/-- Lexicographic strict order on character lists, by code point.  For the
keys the program actually stores (UTF-8 strings), code-point order agrees
with bbolt's byte-wise order. -/
def lexLt : List Char → List Char → Bool
  | [], [] => false
  | [], _ :: _ => true
  | _ :: _, [] => false
  | a :: as, b :: bs => if a < b then true else if b < a then false else lexLt as bs

/-- Strict key order on strings, the order in which a bbolt cursor yields keys. -/
def strLt (a b : String) : Bool := lexLt a.data b.data

theorem lexLt_irrefl (x : List Char) : lexLt x x = false := by
  induction x with
  | nil => rfl
  | cons a as ih => simp [lexLt, lt_irrefl, ih]

theorem lexLt_trans {x y z : List Char} (hxy : lexLt x y = true)
    (hyz : lexLt y z = true) : lexLt x z = true := by
  induction x generalizing y z with
  | nil =>
    cases y with
    | nil => simp [lexLt] at hxy
    | cons b bs =>
      cases z with
      | nil => simp [lexLt] at hyz
      | cons c cs => rfl
  | cons a as ih =>
    cases y with
    | nil => simp [lexLt] at hxy
    | cons b bs =>
      cases z with
      | nil => simp [lexLt] at hyz
      | cons c cs =>
        simp only [lexLt] at hxy hyz ⊢
        by_cases hab : a < b
        · by_cases hbc : b < c
          · simp [lt_trans hab hbc]
          · by_cases hcb : c < b
            · simp [hbc, hcb] at hyz
            · have hbc2 : b = c := le_antisymm (not_lt.mp hcb) (not_lt.mp hbc)
              subst hbc2
              simp [hab]
        · by_cases hba : b < a
          · simp [hab, hba] at hxy
          · have hab2 : a = b := le_antisymm (not_lt.mp hba) (not_lt.mp hab)
            subst hab2
            by_cases hac : a < c
            · simp [hac]
            · by_cases hca : c < a
              · simp [hac, hca] at hyz
              · have : a = c := le_antisymm (not_lt.mp hca) (not_lt.mp hac)
                subst this
                simp [lt_irrefl] at hxy hyz ⊢
                exact ih hxy hyz

theorem lexLt_antisymm {x y : List Char} (hxy : lexLt x y = false)
    (hyx : lexLt y x = false) : x = y := by
  induction x generalizing y with
  | nil =>
    cases y with
    | nil => rfl
    | cons b bs => simp [lexLt] at hxy
  | cons a as ih =>
    cases y with
    | nil => simp [lexLt] at hyx
    | cons b bs =>
      simp only [lexLt] at hxy hyx
      by_cases hab : a < b
      · simp [hab] at hxy
      · by_cases hba : b < a
        · simp [hba] at hyx
        · have hab2 : a = b := le_antisymm (not_lt.mp hba) (not_lt.mp hab)
          subst hab2
          simp [lt_irrefl] at hxy hyx
          rw [ih hxy hyx]

theorem strLt_trans {x y z : String} (hxy : strLt x y = true)
    (hyz : strLt y z = true) : strLt x z = true := lexLt_trans hxy hyz

theorem strLt_antisymm {x y : String} (hxy : strLt x y = false)
    (hyx : strLt y x = false) : x = y := by
  cases x with
  | mk xd =>
    cases y with
    | mk yd => exact congrArg String.mk (lexLt_antisymm hxy hyx)

theorem strLt_irrefl (x : String) : strLt x x = false := lexLt_irrefl x.data

/-! ### Association lists

Two flavours are used.  `putMem`/`lookupKey`/`eraseKey` model Go's
in-memory maps (`activeReminders`, `lastRunStatuses`): unordered, insert
overwrites, delete of an absent key is a no-op.  `putS`/`putWith` model a
bbolt bucket: the list is kept sorted by `strLt` so that list order is
cursor-iteration order; `putS` is `Put` (upsert), `putWith` is
`CreateBucketIfNotExists` followed by an update of the sub-bucket. -/

/-- Map lookup: first entry with the given key. -/
def lookupKey {α : Type} (k : String) : List (String × α) → Option α
  | [] => none
  | (k2, v) :: rest => if k2 = k then some v else lookupKey k rest

/-- Map delete: removes every entry with the given key (keys are unique in
every map the program builds, so this is Go's `delete` / bbolt's `Delete`). -/
def eraseKey {α : Type} (k : String) (l : List (String × α)) : List (String × α) :=
  l.filter (fun e => e.1 ≠ k)

/-- Go map insert: overwrites any previous binding of the key. -/
def putMem {α : Type} (k : String) (v : α) (l : List (String × α)) : List (String × α) :=
  (k, v) :: eraseKey k l

/-- Bucket `Put`: upsert keeping the key-sorted order that the cursor
iterates in. -/
def putS {α : Type} (k : String) (v : α) : List (String × α) → List (String × α)
  | [] => [(k, v)]
  | (k2, v2) :: rest =>
    if strLt k k2 then (k, v) :: (k2, v2) :: rest
    else if k = k2 then (k, v) :: rest
    else (k2, v2) :: putS k v rest

/-- Bucket `CreateBucketIfNotExists` followed by an update `f` of the
sub-bucket: if the key is absent a fresh sub-bucket `dflt` is created and
updated; if present, the existing sub-bucket is updated in place. -/
def putWith {α : Type} (k : String) (dflt : α) (f : α → α) :
    List (String × α) → List (String × α)
  | [] => [(k, f dflt)]
  | (k2, v2) :: rest =>
    if strLt k k2 then (k, f dflt) :: (k2, v2) :: rest
    else if k = k2 then (k2, f v2) :: rest
    else (k2, v2) :: putWith k dflt f rest

/-- The keys of a bucket are strictly increasing in cursor order. -/
abbrev keysSorted {α : Type} (l : List (String × α)) : Prop :=
  l.Pairwise (fun a b => strLt a.1 b.1 = true)

theorem bool_eq_false {b : Bool} (h : ¬ b = true) : b = false := by
  cases b with
  | false => rfl
  | true => exact absurd rfl h

theorem strLt_of_not_of_ne {a b : String} (h1 : strLt a b = false) (h2 : a ≠ b) :
    strLt b a = true := by
  cases h3 : strLt b a with
  | true => rfl
  | false => exact absurd (strLt_antisymm h1 h3) h2


theorem mem_putS {α : Type} {k : String} {v : α} {l : List (String × α)}
    {x : String × α} (hx : x ∈ putS k v l) : x = (k, v) ∨ x ∈ l := by
  induction l with
  | nil => simpa [putS] using hx
  | cons e rest ih =>
    obtain ⟨k2, v2⟩ := e
    by_cases h1 : strLt k k2
    · simp only [putS, if_pos h1] at hx
      rcases List.mem_cons.mp hx with h | h
      · exact Or.inl h
      · exact Or.inr h
    · by_cases h2 : k = k2
      · simp only [putS, if_neg h1, if_pos h2] at hx
        rcases List.mem_cons.mp hx with h | h
        · exact Or.inl h
        · exact Or.inr (List.mem_cons_of_mem _ h)
      · simp only [putS, if_neg h1, if_neg h2] at hx
        rcases List.mem_cons.mp hx with h | h
        · exact Or.inr (by rw [h]; exact List.mem_cons_self _ _)
        · rcases ih h with h3 | h3
          · exact Or.inl h3
          · exact Or.inr (List.mem_cons_of_mem _ h3)

theorem putS_keysSorted {α : Type} {k : String} {v : α} {l : List (String × α)}
    (h : keysSorted l) : keysSorted (putS k v l) := by
  induction l with
  | nil => simp [putS, keysSorted]
  | cons e rest ih =>
    obtain ⟨k2, v2⟩ := e
    obtain ⟨hhead, htail⟩ := List.pairwise_cons.mp h
    by_cases h1 : strLt k k2
    · simp only [putS, if_pos h1]
      refine List.Pairwise.cons ?_ (List.Pairwise.cons hhead htail)
      intro x hx
      rcases List.mem_cons.mp hx with h2 | h2
      · rw [h2]; exact h1
      · exact strLt_trans h1 (hhead x h2)
    · by_cases h2 : k = k2
      · simp only [putS, if_neg h1, if_pos h2]
        refine List.Pairwise.cons ?_ htail
        intro x hx
        rw [h2]
        exact hhead x hx
      · simp only [putS, if_neg h1, if_neg h2]
        refine List.Pairwise.cons ?_ (ih htail)
        intro x hx
        rcases mem_putS hx with h3 | h3
        · rw [h3]
          exact strLt_of_not_of_ne (bool_eq_false h1) h2
        · exact hhead x h3

theorem mem_putWith {α : Type} {k : String} {dflt : α} {f : α → α}
    {l : List (String × α)} {x : String × α} (hx : x ∈ putWith k dflt f l) :
    x.2 = f dflt ∨ (∃ e ∈ l, x.2 = f e.2) ∨ x ∈ l := by
  induction l with
  | nil =>
    simp only [putWith, List.mem_singleton] at hx
    exact Or.inl (by rw [hx])
  | cons e rest ih =>
    obtain ⟨k2, v2⟩ := e
    by_cases h1 : strLt k k2
    · simp only [putWith, if_pos h1] at hx
      rcases List.mem_cons.mp hx with h | h
      · exact Or.inl (by rw [h])
      · exact Or.inr (Or.inr h)
    · by_cases h2 : k = k2
      · simp only [putWith, if_neg h1, if_pos h2] at hx
        rcases List.mem_cons.mp hx with h | h
        · exact Or.inr (Or.inl ⟨(k2, v2), List.mem_cons_self _ _, by rw [h]⟩)
        · exact Or.inr (Or.inr (List.mem_cons_of_mem _ h))
      · simp only [putWith, if_neg h1, if_neg h2] at hx
        rcases List.mem_cons.mp hx with h | h
        · exact Or.inr (Or.inr (by rw [h]; exact List.mem_cons_self _ _))
        · rcases ih h with h3 | h3 | h3
          · exact Or.inl h3
          · obtain ⟨e2, he2, hx2⟩ := h3
            exact Or.inr (Or.inl ⟨e2, List.mem_cons_of_mem _ he2, hx2⟩)
          · exact Or.inr (Or.inr (List.mem_cons_of_mem _ h3))

theorem putWith_keyFixed {α : Type} {k : String} {dflt : α} {f : α → α}
    {l : List (String × α)} {x : String × α} (hx : x ∈ putWith k dflt f l) :
    x.1 = k ∨ x ∈ l := by
  induction l with
  | nil =>
    simp only [putWith, List.mem_singleton] at hx
    exact Or.inl (by rw [hx])
  | cons e rest ih =>
    obtain ⟨k2, v2⟩ := e
    by_cases h1 : strLt k k2
    · simp only [putWith, if_pos h1] at hx
      rcases List.mem_cons.mp hx with h | h
      · exact Or.inl (by rw [h])
      · exact Or.inr h
    · by_cases h2 : k = k2
      · simp only [putWith, if_neg h1, if_pos h2] at hx
        rcases List.mem_cons.mp hx with h | h
        · exact Or.inl (by rw [h, h2])
        · exact Or.inr (List.mem_cons_of_mem _ h)
      · simp only [putWith, if_neg h1, if_neg h2] at hx
        rcases List.mem_cons.mp hx with h | h
        · exact Or.inr (by rw [h]; exact List.mem_cons_self _ _)
        · rcases ih h with h3 | h3
          · exact Or.inl h3
          · exact Or.inr (List.mem_cons_of_mem _ h3)

theorem putWith_keysSorted {α : Type} {k : String} {dflt : α} {f : α → α}
    {l : List (String × α)} (h : keysSorted l) : keysSorted (putWith k dflt f l) := by
  induction l with
  | nil => simp [putWith, keysSorted]
  | cons e rest ih =>
    obtain ⟨k2, v2⟩ := e
    obtain ⟨hhead, htail⟩ := List.pairwise_cons.mp h
    by_cases h1 : strLt k k2
    · simp only [putWith, if_pos h1]
      refine List.Pairwise.cons ?_ (List.Pairwise.cons hhead htail)
      intro x hx
      rcases List.mem_cons.mp hx with h2 | h2
      · rw [h2]; exact h1
      · exact strLt_trans h1 (hhead x h2)
    · by_cases h2 : k = k2
      · simp only [putWith, if_neg h1, if_pos h2]
        exact List.Pairwise.cons hhead htail
      · simp only [putWith, if_neg h1, if_neg h2]
        refine List.Pairwise.cons ?_ (ih htail)
        intro x hx
        rcases putWith_keyFixed hx with h3 | h3
        · rw [h3]
          exact strLt_of_not_of_ne (bool_eq_false h1) h2
        · exact hhead x h3

/-! ### Data model (src/app/db.go) -/

/-- One playable unit, as in db.go's `Item` struct.  `content` is the
opaque byte payload, modelled as a string. -/
structure Item where
  name : String
  type : String
  content : String
deriving DecidableEq, Repr

/-- A category of the ingestion payload, as in db.go's `Category` struct. -/
structure Category where
  name : String
  items : List Item
deriving DecidableEq, Repr

/-- What an item's sub-bucket stores: the values at the `type` and
`content` keys. -/
abbrev ItemRec : Type := String × String

/-- One category's bucket: item name to item record, key-sorted. -/
abbrev CatBucket : Type := List (String × ItemRec)

/-- The persisted database.  `categories` is the `categories` top-level
bucket (absent until first created), holding one sub-bucket per category;
`lastRun` is the `last_run` top-level bucket mapping a category name to
the decimal text of the last played index. -/
structure Store where
  categories : Option (List (String × CatBucket))
  lastRun : Option (List (String × String))
deriving DecidableEq, Repr

def emptyStore : Store := ⟨none, none⟩

/-- The write transaction of db.go's `downloadFromAPI` (lines 52-80): one
transaction over the whole payload; for each category it creates the
`categories` bucket and the category's bucket if missing, then upserts
each item's `type` and `content` into the item's sub-bucket, in payload
order. -/
def ingestItems (its : List Item) (bkt : CatBucket) : CatBucket :=
  its.foldl (fun b it => putS it.name (it.type, it.content) b) bkt

def ingestOne (c : Category) (cats : List (String × CatBucket)) :
    List (String × CatBucket) :=
  putWith c.name [] (ingestItems c.items) cats

def ingestCatalog (catItems : List Category) (st : Store) : Store :=
  { st with
    categories := some (catItems.foldl (fun cats c => ingestOne c cats)
      (st.categories.getD [])) }

/-- db.go's `categoryItems` (lines 98-126): fails if the `categories`
bucket or the category's bucket is absent; otherwise walks the category's
bucket with a cursor (key order) and rebuilds the item list. -/
def categoryItems (st : Store) (category : String) : Except String (List Item) :=
  match st.categories with
  | none => .error "no data downloaded yet!"
  | some cats =>
    match lookupKey category cats with
    | none => .error ("unknown reminder category: " ++ category)
    | some bkt => .ok (bkt.map (fun e => ⟨e.1, e.2.1, e.2.2⟩))

/-- db.go's `categoriesFromDB` (lines 83-96): the cursor over the
`categories` bucket, in key order. -/
def categoriesFromDB (st : Store) : List String :=
  match st.categories with
  | none => []
  | some cats => cats.map (fun e => e.1)

/-- db.go's `saveLastRun` (lines 128-136): one write transaction that
creates the `last_run` bucket if missing and puts the decimal text of the
index under the category name. -/
def saveLastRun (category : String) (index : Int) (st : Store) : Store :=
  { st with lastRun := some (putS category (toString index) (st.lastRun.getD [])) }

/-- db.go's `deleteLastRun` (lines 138-146): one write transaction that
creates the `last_run` bucket if missing and deletes the category's key
(deleting an absent key succeeds). -/
def deleteLastRun (category : String) (st : Store) : Store :=
  { st with lastRun := some (eraseKey category (st.lastRun.getD [])) }

/-- Numeric value of an ASCII digit, `none` for any other character. -/
def digitVal (c : Char) : Option Nat :=
  if '0' ≤ c ∧ c ≤ '9' then some (c.toNat - '0'.toNat) else none

/-- Model of Go's `strconv.Atoi` digit run: `none` unless the character
list is a nonempty run of ASCII digits. -/
def parseDigits : List Char → Option Nat
  | [] => none
  | [c] => digitVal c
  | c :: rest =>
    match digitVal c, parseDigits rest with
    | some d, some n => some (d * 10 ^ rest.length + n)
    | _, _ => none

/-- Model of Go's `strconv.Atoi`: an optional sign followed by a nonempty
digit run, the whole string consumed; anything else is an error (`none`). -/
def atoi (s : String) : Option Int :=
  match s.data with
  | '+' :: rest => (parseDigits rest).map Int.ofNat
  | '-' :: rest => (parseDigits rest).map (fun n => -(n : Int))
  | l => (parseDigits l).map Int.ofNat

/-- db.go's `lastRuns` (lines 148-166): walks the `last_run` bucket with a
cursor; entries whose value fails `strconv.Atoi` are logged and skipped,
the rest land in the returned map.  An absent bucket yields the empty map;
the function itself never fails. -/
def lastRuns (st : Store) : List (String × Int) :=
  match st.lastRun with
  | none => []
  | some bkt => bkt.filterMap (fun e => (atoi e.2).map (fun i => (e.1, i)))

/-! ### Scheduler state and one tick (src/app/app.go) -/

/-- The mutable program state the scheduler touches: the two package-level
maps of app.go (`activeReminders`, `lastRunStatuses`) plus the persisted
store. -/
structure AppState where
  activeReminders : List (String × List Item)
  lastRunStatuses : List (String × Int)
  store : Store
deriving DecidableEq, Repr

/-- Observable effects of one `showReminder` call, in program order:
`setMem` is the in-memory `lastRunStatuses[category] = nextIndex`
(line 239), `persist` is the `saveLastRun` call (line 240), `display` is
the handoff of the item to the display sink, the window built and shown in
lines 243-296; its flag records whether the sink rendered the item
successfully. -/
inductive Event where
  | setMem : String → Int → Event
  | persist : String → Int → Event
  | display : String → Item → Bool → Event
deriving DecidableEq, Repr

def Event.isDisplay : Event → Bool
  | .display _ _ _ => true
  | _ => false

def Event.isPersist : Event → Bool
  | .persist _ _ => true
  | _ => false

structure TickResult where
  events : List Event
  state : AppState
  hasMore : Bool
deriving DecidableEq, Repr

/-- Placeholder never reached by in-bounds indexing. -/
def defaultItem : Item := ⟨"", "", ""⟩

/-- app.go's `showReminder` (lines 224-301).  `persistOk` is the outcome
of the `saveLastRun` transaction (a failure is only printed, line 241);
`displayOk` is the display sink's outcome (a failure only changes what is
rendered, lines 256-259).  Returns the effects, the new state, and the
function's boolean: whether more items remain. -/
def showReminder (persistOk displayOk : Bool) (category : String) (s : AppState) :
    TickResult :=
  match lookupKey category s.activeReminders with
  | none => ⟨[], s, false⟩
  | some items =>
    if items.length = 0 then ⟨[], s, false⟩
    else
      let lastIndex : Int := (lookupKey category s.lastRunStatuses).getD (-1)
      let nextIndex : Int := lastIndex + 1
      if (items.length : Int) ≤ nextIndex then ⟨[], s, false⟩
      else
        let s1 : AppState :=
          { s with lastRunStatuses := putMem category nextIndex s.lastRunStatuses }
        let s2 : AppState :=
          if persistOk then { s1 with store := saveLastRun category nextIndex s1.store }
          else s1
        let nextItem : Item := items.getD nextIndex.toNat defaultItem
        let remaining : Int := (items.length : Int) - nextIndex - 1
        ⟨[.setMem category nextIndex, .persist category nextIndex,
          .display category nextItem displayOk], s2, 0 < remaining⟩

/-- app.go's `killReminder` closure (lines 186-194): removes the category
from both in-memory maps and deletes its persisted last-run record. -/
def killReminder (category : String) (s : AppState) : AppState :=
  { activeReminders := eraseKey category s.activeReminders,
    lastRunStatuses := eraseKey category s.lastRunStatuses,
    store := deleteLastRun category s.store }

/-! ### The timer goroutine as a transition system

The goroutine of `startTimer` (lines 196-216) blocks on a select between
the ticker and the cancellation context.  A run of the goroutine is
determined by the finite schedule of events it observes: each entry is
either a timer tick (with the storage and display outcomes of that tick)
or the cancellation signal firing first. -/

inductive LoopInput where
  | tick : Bool → Bool → LoopInput
  | cancel : LoopInput
deriving DecidableEq, Repr

/-- How a simulated run of the goroutine ended.  `running` means the
schedule ran out while the loop was still alive; `exitedClean` means the
goroutine returned from inside the select loop, so the deferred
`killReminder` ran; `exitedNoCleanup` means it returned from line 199,
before the defer at lines 202-205 was registered, so no cleanup ran. -/
inductive TaskStatus where
  | running
  | exitedClean
  | exitedNoCleanup
deriving DecidableEq, Repr

structure RunResult where
  state : AppState
  trace : List Event
  status : TaskStatus
deriving DecidableEq, Repr

/-- The select loop of the goroutine (lines 206-215) under a schedule:
a tick runs `showReminder` and keeps looping while it returns true; a
false return or a cancellation returns from the loop, which fires the
deferred `ticker.Stop(); killReminder()`. -/
def runLoop (category : String) : List LoopInput → AppState → RunResult
  | [], s => ⟨s, [], .running⟩
  | .tick p d :: rest, s =>
    let r := showReminder p d category s
    if r.hasMore then
      let r2 := runLoop category rest r.state
      ⟨r2.state, r.events ++ r2.trace, r2.status⟩
    else
      ⟨killReminder category r.state, r.events, .exitedClean⟩
  | .cancel :: _, s => ⟨killReminder category s, [], .exitedClean⟩

/-- The whole goroutine body (lines 197-216).  With `immediate` set, the
first reminder is shown synchronously at line 198 and a false return exits
at line 199 with NO cleanup (the defer is registered only at line 202);
otherwise the loop starts directly. -/
def runTask (immediate : Bool) (p d : Bool) (category : String)
    (script : List LoopInput) (s : AppState) : RunResult :=
  if immediate then
    let r := showReminder p d category s
    if r.hasMore then
      let r2 := runLoop category script r.state
      ⟨r2.state, r.events ++ r2.trace, r2.status⟩
    else
      ⟨r.state, r.events, .exitedNoCleanup⟩
  else
    runLoop category script s

/-- Whether `startTimer` (lines 169-181) spawns the goroutine: it returns
early when the category has no entry or no items in `activeReminders`, or
when `remaining = len(items) - lastIndex - 1` is zero. -/
inductive StartOutcome where
  | noTask
  | taskStarted
deriving DecidableEq, Repr

def startTimer (category : String) (s : AppState) : StartOutcome :=
  match lookupKey category s.activeReminders with
  | none => .noTask
  | some items =>
    if items.length = 0 then .noTask
    else
      let lastIndex : Int := (lookupKey category s.lastRunStatuses).getD (-1)
      let remaining : Int := (items.length : Int) - lastIndex - 1
      if remaining = 0 then .noTask else .taskStarted

/-- Outcome of the Start button handler. -/
inductive StartResult where
  | rejectedRunning
  | errorItems : String → StartResult
  | started : StartOutcome → StartResult
deriving DecidableEq, Repr

/-- The Start button handler (app.go lines 111-136), for an already
selected category: reject if the category is in `activeReminders`
("Already running reminders for ..."); otherwise fetch its items, record
them in `activeReminders`, and call `startTimer`. -/
def startButton (category : String) (s : AppState) : AppState × StartResult :=
  match lookupKey category s.activeReminders with
  | some _ => (s, .rejectedRunning)
  | none =>
    match categoryItems s.store category with
    | .error e => (s, .errorItems e)
    | .ok items =>
      let s1 : AppState :=
        { s with activeReminders := putMem category items s.activeReminders }
      (s1, .started (startTimer category s1))

/-- One iteration of the resume loop in `main` (lines 154-163), for a
category present in `lastRunStatuses`: if fetching its items fails the
category is dropped from `lastRunStatuses` and nothing starts; otherwise
its items are recorded in `activeReminders` and `startTimer` is called
with `immediateDisplay = false`. -/
def resumeCategory (category : String) (s : AppState) : AppState × Option StartOutcome :=
  match categoryItems s.store category with
  | .error _ => ({ s with lastRunStatuses := eraseKey category s.lastRunStatuses }, none)
  | .ok items =>
    let s1 : AppState :=
      { s with activeReminders := putMem category items s.activeReminders }
    (s1, some (startTimer category s1))

instance {ε α : Type} [DecidableEq ε] [DecidableEq α] : DecidableEq (Except ε α) :=
  fun x y =>
    match x, y with
    | .ok v, .ok w =>
      if h : v = w then isTrue (by rw [h]) else isFalse (by intro hh; cases hh; exact h rfl)
    | .error v, .error w =>
      if h : v = w then isTrue (by rw [h]) else isFalse (by intro hh; cases hh; exact h rfl)
    | .ok _, .error _ => isFalse (by intro hh; cases hh)
    | .error _, .ok _ => isFalse (by intro hh; cases hh)

/-! ### Claim C1: playback order of `itemsOf` after `ingest` -/

theorem lookupKey_mem {α : Type} {k : String} {v : α} {l : List (String × α)}
    (h : lookupKey k l = some v) : (k, v) ∈ l := by
  induction l with
  | nil => cases h
  | cons e rest ih =>
    obtain ⟨k2, v2⟩ := e
    by_cases h2 : k2 = k
    · simp only [lookupKey, if_pos h2] at h
      cases h
      rw [h2]
      exact List.mem_cons_self _ _
    · simp only [lookupKey, if_neg h2] at h
      exact List.mem_cons_of_mem _ (ih h)

/-- Every bucket reachable from the `categories` bucket is key-sorted:
the invariant the bbolt contract guarantees for every store the engine
ever hands back. -/
def storeSorted (st : Store) : Prop :=
  ∀ cats, st.categories = some cats → keysSorted cats ∧ ∀ e ∈ cats, keysSorted e.2

theorem ingestItems_keysSorted {its : List Item} {b : CatBucket}
    (h : keysSorted b) : keysSorted (ingestItems its b) := by
  induction its generalizing b with
  | nil => exact h
  | cons it rest ih => exact ih (putS_keysSorted h)

theorem ingestOne_sorted (c : Category) {cats : List (String × CatBucket)}
    (h1 : keysSorted cats) (h2 : ∀ e ∈ cats, keysSorted e.2) :
    keysSorted (ingestOne c cats) ∧ ∀ e ∈ ingestOne c cats, keysSorted e.2 := by
  refine ⟨putWith_keysSorted h1, ?_⟩
  intro e he
  rcases mem_putWith he with h3 | h3 | h3
  · rw [h3]
    exact ingestItems_keysSorted List.Pairwise.nil
  · obtain ⟨e2, he2, heq⟩ := h3
    rw [heq]
    exact ingestItems_keysSorted (h2 e2 he2)
  · exact h2 e h3

theorem foldl_ingestOne_sorted {catalog : List Category}
    {cats : List (String × CatBucket)}
    (h1 : keysSorted cats) (h2 : ∀ e ∈ cats, keysSorted e.2) :
    keysSorted (catalog.foldl (fun cs c => ingestOne c cs) cats) ∧
      ∀ e ∈ catalog.foldl (fun cs c => ingestOne c cs) cats, keysSorted e.2 := by
  induction catalog generalizing cats with
  | nil => exact ⟨h1, h2⟩
  | cons c rest ih =>
    simp only [List.foldl_cons]
    have hstep := ingestOne_sorted c h1 h2
    exact ih hstep.1 hstep.2

theorem ingestCatalog_storeSorted {catalog : List Category} {st : Store}
    (h : storeSorted st) : storeSorted (ingestCatalog catalog st) := by
  intro cats hc
  simp only [ingestCatalog] at hc
  cases hc
  have hbase : keysSorted (st.categories.getD []) ∧
      ∀ e ∈ st.categories.getD [], keysSorted e.2 := by
    cases hcat : st.categories with
    | none => simp [keysSorted]
    | some cs => simpa using h cs hcat
  exact foldl_ingestOne_sorted hbase.1 hbase.2

/-- Names of the items `categoryItems` returns are strictly increasing in
the bbolt key order whenever the store's buckets are key-sorted. -/
theorem categoryItems_names_sorted {st : Store} {category : String} {items : List Item}
    (hs : storeSorted st) (h : categoryItems st category = .ok items) :
    (items.map Item.name).Pairwise (fun a b => strLt a b = true) := by
  cases hc : st.categories with
  | none => simp only [categoryItems, hc] at h; cases h
  | some cats =>
    simp only [categoryItems, hc] at h
    cases hl : lookupKey category cats with
    | none => simp only [hl] at h; cases h
    | some bkt =>
      simp only [hl] at h
      cases h
      have hb : keysSorted bkt := (hs cats hc).2 _ (lookupKey_mem hl)
      rw [List.map_map]
      exact List.Pairwise.map _ (fun a b hr => hr) hb

/-- The spec's own example payload: category "news" with items named
zeta, alpha, mango ingested in that order. -/
def newsCatalog : List Category :=
  [⟨"news", [⟨"zeta", "text", "z"⟩, ⟨"alpha", "text", "a"⟩, ⟨"mango", "text", "m"⟩]⟩]

/-- C1 counterexample: ingesting items named zeta, alpha, mango in that
order does NOT make `categoryItems` return them in that order; it returns
them sorted by name (alpha, mango, zeta), because `categoryItems` walks
the category's bucket with a key-ordered cursor and the item names are the
keys. -/
theorem C1_insertion_order_counterexample :
    categoryItems (ingestCatalog newsCatalog emptyStore) "news" ≠
      .ok [⟨"zeta", "text", "z"⟩, ⟨"alpha", "text", "a"⟩, ⟨"mango", "text", "m"⟩] ∧
    categoryItems (ingestCatalog newsCatalog emptyStore) "news" =
      .ok [⟨"alpha", "text", "a"⟩, ⟨"mango", "text", "m"⟩, ⟨"zeta", "text", "z"⟩] := by
  exact ⟨by decide, rfl⟩

/-- C1 (amended): for every category, `ingest` followed by `itemsOf`
returns the category's items sorted lexicographically by item name (the
storage engine's key order), independent of the order in which they were
ingested; first-insertion order is not preserved. -/
theorem C1_items_lexicographic (catalog : List Category) (category : String)
    (items : List Item)
    (h : categoryItems (ingestCatalog catalog emptyStore) category = .ok items) :
    (items.map Item.name).Pairwise (fun a b => strLt a b = true) :=
  categoryItems_names_sorted (ingestCatalog_storeSorted (fun _ hc => by cases hc)) h

/-- C1 witness: the amended theorem applied to the spec's example. -/
theorem C1_items_lexicographic_witness :
    categoryItems (ingestCatalog newsCatalog emptyStore) "news" =
      .ok [⟨"alpha", "text", "a"⟩, ⟨"mango", "text", "m"⟩, ⟨"zeta", "text", "z"⟩] ∧
    ((([⟨"alpha", "text", "a"⟩, ⟨"mango", "text", "m"⟩,
        ⟨"zeta", "text", "z"⟩] : List Item).map Item.name).Pairwise
      (fun a b => strLt a b = true)) :=
  ⟨rfl, C1_items_lexicographic newsCatalog "news" _ rfl⟩

/-! ### Small map lemmas and a canonical form for one tick -/

theorem lookupKey_eraseKey_self {α : Type} (k : String) (l : List (String × α)) :
    lookupKey k (eraseKey k l) = none := by
  induction l with
  | nil => rfl
  | cons e rest ih =>
    obtain ⟨k2, v2⟩ := e
    by_cases h : k2 = k
    · simpa [eraseKey, h] using ih
    · simpa [eraseKey, lookupKey, h] using ih

theorem lookupKey_putMem_self {α : Type} (k : String) (v : α) (l : List (String × α)) :
    lookupKey k (putMem k v l) = some v := by
  simp [putMem, lookupKey]

theorem mem_eraseKey {α : Type} {k : String} {l : List (String × α)}
    {x : String × α} (hx : x ∈ eraseKey k l) : x.1 ≠ k ∧ x ∈ l := by
  have := List.mem_filter.mp hx
  exact ⟨by simpa using this.2, this.1⟩

/-- A tick does something exactly when the category has a nonempty items
snapshot and the next index is still in range. -/
def tickFires (category : String) (s : AppState) : Prop :=
  ∃ items, lookupKey category s.activeReminders = some items ∧
    items.length ≠ 0 ∧
    (lookupKey category s.lastRunStatuses).getD (-1) + 1 < (items.length : Int)

/-- When the tick does not fire, `showReminder` returns false and leaves
everything untouched (lines 224-237). -/
theorem showReminder_stuck (p d : Bool) {category : String} {s : AppState}
    (h : ¬ tickFires category s) : showReminder p d category s = ⟨[], s, false⟩ := by
  cases hit : lookupKey category s.activeReminders with
  | none => simp only [showReminder, hit]
  | some items =>
    by_cases h0 : items.length = 0
    · simp only [showReminder, hit, h0, if_pos rfl]
      simp [h0]
    · by_cases h1 : (lookupKey category s.lastRunStatuses).getD (-1) + 1 <
        (items.length : Int)
      · exact absurd ⟨items, hit, h0, h1⟩ h
      · simp only [showReminder, hit]
        rw [if_neg h0, if_pos (not_lt.mp h1)]

/-- When the tick fires, `showReminder` records the next index in memory,
attempts to persist it, displays the item at the next index, and reports
whether more remain (lines 239-301). -/
theorem showReminder_fires (p d : Bool) {category : String} {s : AppState}
    {items : List Item}
    (hit : lookupKey category s.activeReminders = some items)
    (h0 : items.length ≠ 0)
    (h1 : (lookupKey category s.lastRunStatuses).getD (-1) + 1 < (items.length : Int)) :
    showReminder p d category s =
      ⟨[.setMem category ((lookupKey category s.lastRunStatuses).getD (-1) + 1),
        .persist category ((lookupKey category s.lastRunStatuses).getD (-1) + 1),
        .display category
          (items.getD ((lookupKey category s.lastRunStatuses).getD (-1) + 1).toNat
            defaultItem) d],
       { s with
         lastRunStatuses :=
           putMem category ((lookupKey category s.lastRunStatuses).getD (-1) + 1)
             s.lastRunStatuses,
         store :=
           if p then
             saveLastRun category ((lookupKey category s.lastRunStatuses).getD (-1) + 1)
               s.store
           else s.store },
       decide (0 < (items.length : Int) -
         ((lookupKey category s.lastRunStatuses).getD (-1) + 1) - 1)⟩ := by
  simp only [showReminder, hit]
  rw [if_neg h0, if_neg (not_le.mpr h1)]
  cases p with
  | false => rfl
  | true => rfl

/-! ### Claim C2: order of persistence and display within a tick -/

/-- A running category used for concrete ticks: two items, nothing played
yet. -/
def tickDemoState : AppState :=
  ⟨[("quotes", [⟨"q1", "text", "one"⟩, ⟨"q2", "text", "two"⟩])], [], emptyStore⟩

/-- C2 counterexample: on a successful tick the trace is
setMem, persist, display — the persist call (app.go line 240) comes
BEFORE the display-sink call (lines 243-296), so the display is not
invoked first. -/
theorem C2_display_first_counterexample :
    (showReminder true true "quotes" tickDemoState).events.any Event.isPersist ∧
    (showReminder true true "quotes" tickDemoState).events.any Event.isDisplay ∧
    ¬ ((showReminder true true "quotes" tickDemoState).events.findIdx Event.isDisplay <
        (showReminder true true "quotes" tickDemoState).events.findIdx Event.isPersist) := by
  decide

/-- C2 (amended): on every tick that displays an item the scheduler
records the new index in memory and invokes setProgress BEFORE the
display-sink call (the trace is always setMem, persist, display), and the
display's success or failure gates neither persistence nor the tick's
outcome: state and return value are identical whatever the display
outcome. -/
theorem C2_persist_before_display (p d d2 : Bool) (category : String) (s : AppState) :
    ((showReminder p d category s).events = [] ∨
      ∃ n it, (showReminder p d category s).events =
        [.setMem category n, .persist category n, .display category it d]) ∧
    (showReminder p d category s).state = (showReminder p d2 category s).state ∧
    (showReminder p d category s).hasMore = (showReminder p d2 category s).hasMore := by
  by_cases h : tickFires category s
  · obtain ⟨items, hit, h0, h1⟩ := h
    rw [showReminder_fires p d hit h0 h1, showReminder_fires p d2 hit h0 h1]
    exact ⟨Or.inr ⟨_, _, rfl⟩, rfl, rfl⟩
  · rw [showReminder_stuck p d h, showReminder_stuck p d2 h]
    exact ⟨Or.inl rfl, rfl, rfl⟩

/-! ### Claim C3: exhaustion inside the select loop -/

/-- A category with a single item that has already been played (lastIndex
0 both in memory and persisted). -/
def exhaustedState : AppState :=
  ⟨[("quotes", [⟨"q1", "text", "one"⟩])], [("quotes", 0)],
   ⟨none, some [("quotes", "0")]⟩⟩

/-- C3 counterexample: when a tick finds nextIndex ≥ len(items), the tick
itself displays nothing and writes nothing, but the deferred cleanup that
runs on this exit deletes the persisted record (app.go line 191), so the
ledger does NOT still hold the final index. -/
theorem C3_ledger_preserved_counterexample :
    (runLoop "quotes" [.tick true true] exhaustedState).trace = [] ∧
    (runLoop "quotes" [.tick true true] exhaustedState).status = .exitedClean ∧
    lastRuns (runLoop "quotes" [.tick true true] exhaustedState).state.store ≠
      [("quotes", 0)] ∧
    lastRuns (runLoop "quotes" [.tick true true] exhaustedState).state.store = [] := by
  decide

/-- C3 (amended): when a tick computes nextIndex ≥ len(items) the task
exits with no display and no setProgress write on that tick, via exactly
the same exit as a cancellation: the deferred `killReminder` runs,
removing the task AND deleting the in-memory and persisted progress
records.  Exhaustion does not preserve the persisted record. -/
theorem C3_exhausted_same_cleanup_as_cancel (p d : Bool) (category : String)
    (s : AppState) (items : List Item)
    (hit : lookupKey category s.activeReminders = some items)
    (hend : (items.length : Int) ≤ (lookupKey category s.lastRunStatuses).getD (-1) + 1) :
    runLoop category [.tick p d] s = ⟨killReminder category s, [], .exitedClean⟩ ∧
    runLoop category [.cancel] s = ⟨killReminder category s, [], .exitedClean⟩ ∧
    lookupKey category (killReminder category s).activeReminders = none ∧
    lookupKey category (killReminder category s).lastRunStatuses = none ∧
    lookupKey category ((killReminder category s).store.lastRun.getD []) = none := by
  have hstuck : ¬ tickFires category s := by
    rintro ⟨items2, hit2, h02, h12⟩
    rw [hit] at hit2
    cases hit2
    exact absurd h12 (not_lt.mpr hend)
  refine ⟨?_, rfl, ?_, ?_, ?_⟩
  · simp [runLoop, showReminder_stuck p d hstuck]
  · exact lookupKey_eraseKey_self category s.activeReminders
  · exact lookupKey_eraseKey_self category s.lastRunStatuses
  · exact lookupKey_eraseKey_self category (s.store.lastRun.getD [])

/-- C3 witness: the amended theorem at the concrete exhausted state. -/
theorem C3_exhausted_same_cleanup_as_cancel_witness :
    lookupKey "quotes" exhaustedState.activeReminders =
      some [⟨"q1", "text", "one"⟩] ∧
    (((List.length [(⟨"q1", "text", "one"⟩ : Item)] : Int)) ≤
      (lookupKey "quotes" exhaustedState.lastRunStatuses).getD (-1) + 1) ∧
    runLoop "quotes" [.tick true true] exhaustedState =
      ⟨killReminder "quotes" exhaustedState, [], .exitedClean⟩ :=
  ⟨rfl, by decide,
    (C3_exhausted_same_cleanup_as_cancel true true "quotes" exhaustedState
      [⟨"q1", "text", "one"⟩] rfl (by decide)).1⟩

/-! ### Claim C4: resume fidelity after restart -/

/-- C4 (confirmed): on restart, a category whose persisted record is
`i` with `i < len(items)-1` and whose items load successfully is
auto-started with `immediateDisplay = false` (nothing is shown before
the first tick), and the first tick shows exactly the item at index
`i + 1`: the tick's trace records setMem (i+1), persist (i+1) and the
display of `items[i+1]` — never index `i` and never `i + 2`. -/
theorem C4_resume_at_next_index (p d : Bool) (category : String) (s : AppState)
    (i : Int) (items : List Item)
    (hrec : lookupKey category s.lastRunStatuses = some i)
    (hitems : categoryItems s.store category = .ok items)
    (hge : -1 ≤ i) (hlt : i < (items.length : Int) - 1) :
    (resumeCategory category s).2 = some .taskStarted ∧
    (runTask false p d category [] (resumeCategory category s).1).trace = [] ∧
    (runTask false p d category [.tick p d] (resumeCategory category s).1).trace =
      [.setMem category (i + 1), .persist category (i + 1),
       .display category (items.getD (i + 1).toNat defaultItem) d] := by
  have hlen0 : items.length ≠ 0 := by
    intro h0
    rw [h0] at hlt
    simp at hlt
    omega
  have hs1 : resumeCategory category s =
      ({ s with activeReminders := putMem category items s.activeReminders },
        some (startTimer category
          { s with activeReminders := putMem category items s.activeReminders })) := by
    simp only [resumeCategory, hitems]
  rw [hs1]
  have hit1 : lookupKey category
      ({ s with activeReminders := putMem category items s.activeReminders} :
        AppState).activeReminders = some items :=
    lookupKey_putMem_self category items s.activeReminders
  have hst : lookupKey category
      ({ s with activeReminders := putMem category items s.activeReminders} :
        AppState).lastRunStatuses = some i := hrec
  refine ⟨?_, rfl, ?_⟩
  · simp only [startTimer, hit1, hst, Option.getD_some]
    rw [if_neg hlen0]
    have : (items.length : Int) - i - 1 ≠ 0 := by omega
    rw [if_neg this]
  · have h1 : (lookupKey category
        ({ s with activeReminders := putMem category items s.activeReminders} :
          AppState).lastRunStatuses).getD (-1) + 1 < (items.length : Int) := by
      rw [hst]
      simpa using by omega
    have hfire := showReminder_fires p d hit1 hlen0 h1
    rw [hst] at hfire
    simp only [Option.getD_some] at hfire
    simp only [runTask, runLoop, hfire]
    cases hdec : decide (0 < (items.length : Int) - (i + 1) - 1) with
    | false => simp
    | true => simp [runLoop]

/-- Three items whose ingest and key order agree, so the snapshot is
predictable. -/
def resumeDemoStore : Store :=
  ingestCatalog
    [⟨"quotes", [⟨"a1", "text", "x"⟩, ⟨"b2", "text", "y"⟩, ⟨"c3", "text", "z"⟩]⟩]
    emptyStore

/-- State right after restart: progress persisted at index 0 has been
loaded into `lastRunStatuses`, nothing active yet. -/
def resumeDemoState : AppState := ⟨[], [("quotes", 0)], resumeDemoStore⟩

/-- C4 witness: with progress persisted at 0 and three items, resume
starts a task and its first tick displays the item at index 1. -/
theorem C4_resume_at_next_index_witness :
    lookupKey "quotes" resumeDemoState.lastRunStatuses = some 0 ∧
    categoryItems resumeDemoState.store "quotes" =
      .ok [⟨"a1", "text", "x"⟩, ⟨"b2", "text", "y"⟩, ⟨"c3", "text", "z"⟩] ∧
    (resumeCategory "quotes" resumeDemoState).2 = some .taskStarted ∧
    (runTask false true true "quotes" [.tick true true]
        (resumeCategory "quotes" resumeDemoState).1).trace =
      [.setMem "quotes" 1, .persist "quotes" 1,
       .display "quotes" ⟨"b2", "text", "y"⟩ true] := by
  have h := C4_resume_at_next_index true true "quotes" resumeDemoState 0
    [⟨"a1", "text", "x"⟩, ⟨"b2", "text", "y"⟩, ⟨"c3", "text", "z"⟩]
    rfl rfl (by decide) (by decide)
  exact ⟨rfl, rfl, h.1, h.2.2⟩

/-! ### Claim C5: the cursor invariant -/

/-- Over any schedule, as long as the category's record survives, it never
decreases and never reaches the snapshot length. -/
theorem runLoop_ledger_bounds {category : String} {script : List LoopInput}
    {s : AppState} {items : List Item}
    (hitems : lookupKey category s.activeReminders = some items)
    (hhi : (lookupKey category s.lastRunStatuses).getD (-1) < (items.length : Int)) :
    ∀ l2, lookupKey category
        (runLoop category script s).state.lastRunStatuses = some l2 →
      (lookupKey category s.lastRunStatuses).getD (-1) ≤ l2 ∧
        l2 < (items.length : Int) := by
  induction script generalizing s with
  | nil =>
    intro l2 h2
    simp only [runLoop] at h2
    rw [h2]
    exact ⟨by simp, by rw [h2] at hhi; simpa using hhi⟩
  | cons inp rest ih =>
    cases inp with
    | cancel =>
      intro l2 h2
      simp only [runLoop, killReminder] at h2
      rw [lookupKey_eraseKey_self] at h2
      cases h2
    | tick p d =>
      by_cases hf : tickFires category s
      · obtain ⟨items2, hit2, h02, h12⟩ := hf
        rw [hitems] at hit2
        cases hit2
        have hfire := showReminder_fires p d hitems h02 h12
        simp only [runLoop, hfire]
        cases hdec : decide
            (0 < (items.length : Int) -
              ((lookupKey category s.lastRunStatuses).getD (-1) + 1) - 1) with
        | false =>
          simp only [Bool.false_eq_true, if_false, killReminder]
          intro l2 h2
          rw [lookupKey_eraseKey_self] at h2
          cases h2
        | true =>
          simp only [if_true]
          intro l2 h2
          have hnext := ih (s := { s with
              lastRunStatuses :=
                putMem category ((lookupKey category s.lastRunStatuses).getD (-1) + 1)
                  s.lastRunStatuses,
              store :=
                if p then
                  saveLastRun category
                    ((lookupKey category s.lastRunStatuses).getD (-1) + 1) s.store
                else s.store }) hitems
            (by simpa [lookupKey_putMem_self] using h12) l2 (by simpa using h2)
          refine ⟨?_, hnext.2⟩
          have : (lookupKey category s.lastRunStatuses).getD (-1) ≤
              (lookupKey category s.lastRunStatuses).getD (-1) + 1 := by omega
          calc (lookupKey category s.lastRunStatuses).getD (-1) ≤
              (lookupKey category s.lastRunStatuses).getD (-1) + 1 := this
            _ ≤ l2 := by simpa [lookupKey_putMem_self] using hnext.1
      · intro l2 h2
        simp only [runLoop, showReminder_stuck p d hf, Bool.false_eq_true, if_false,
          killReminder] at h2
        rw [lookupKey_eraseKey_self] at h2
        cases h2

/-- C5 (confirmed): given a category snapshot and a cursor below the item
count, (a) over every schedule of ticks and cancellations, whenever the
in-memory record still exists its value never decreased and stays below
len(items) — the only other possibility being deletion of the record —
and (b) a single tick either displays exactly one item and moves the
cursor up by exactly 1, or displays nothing and changes nothing. -/
theorem C5_monotonic_progress (category : String) (script : List LoopInput)
    (s : AppState) (items : List Item)
    (hitems : lookupKey category s.activeReminders = some items)
    (hhi : (lookupKey category s.lastRunStatuses).getD (-1) < (items.length : Int)) :
    (∀ l2, lookupKey category
        (runLoop category script s).state.lastRunStatuses = some l2 →
      (lookupKey category s.lastRunStatuses).getD (-1) ≤ l2 ∧
        l2 < (items.length : Int)) ∧
    (∀ p d,
      ((showReminder p d category s).events.countP Event.isDisplay = 1 ∧
        (lookupKey category
            (showReminder p d category s).state.lastRunStatuses).getD (-1) =
          (lookupKey category s.lastRunStatuses).getD (-1) + 1) ∨
      ((showReminder p d category s).events = [] ∧
        (showReminder p d category s).state = s)) := by
  refine ⟨runLoop_ledger_bounds hitems hhi, ?_⟩
  intro p d
  by_cases hf : tickFires category s
  · obtain ⟨items2, hit2, h02, h12⟩ := hf
    left
    rw [showReminder_fires p d hit2 h02 h12]
    exact ⟨rfl, by simp [lookupKey_putMem_self]⟩
  · right
    rw [showReminder_stuck p d hf]
    exact ⟨rfl, rfl⟩

/-- C5 witness: the invariant at a concrete two-item category across one
tick. -/
theorem C5_monotonic_progress_witness :
    lookupKey "quotes" tickDemoState.activeReminders =
      some [⟨"q1", "text", "one"⟩, ⟨"q2", "text", "two"⟩] ∧
    (lookupKey "quotes" tickDemoState.lastRunStatuses).getD (-1) <
      ((List.length [(⟨"q1", "text", "one"⟩ : Item), ⟨"q2", "text", "two"⟩] : Nat) : Int) ∧
    ∀ l2, lookupKey "quotes"
        (runLoop "quotes" [.tick true true] tickDemoState).state.lastRunStatuses =
          some l2 →
      (lookupKey "quotes" tickDemoState.lastRunStatuses).getD (-1) ≤ l2 ∧
        l2 < ((List.length [(⟨"q1", "text", "one"⟩ : Item),
          ⟨"q2", "text", "two"⟩] : Nat) : Int) :=
  ⟨rfl, by decide,
    (C5_monotonic_progress "quotes" [.tick true true] tickDemoState
      [⟨"q1", "text", "one"⟩, ⟨"q2", "text", "two"⟩] rfl (by decide)).1⟩

/-! ### Claim C6: cancellation resets progress -/

theorem eraseKey_idem {α : Type} (k : String) (l : List (String × α)) :
    eraseKey k (eraseKey k l) = eraseKey k l := by
  simp [eraseKey, List.filter_filter]

/-- No entry for a category survives in the progress map once
`deleteLastRun` ran for it. -/
theorem lastRuns_deleteLastRun_ne {category : String} {st : Store}
    {x : String × Int} (hx : x ∈ lastRuns (deleteLastRun category st)) :
    x.1 ≠ category := by
  simp only [lastRuns, deleteLastRun] at hx
  obtain ⟨e, he, hfe⟩ := List.mem_filterMap.mp hx
  have hne := (mem_eraseKey he).1
  cases ha : atoi e.2 with
  | none => rw [ha] at hfe; cases hfe
  | some i =>
    rw [ha] at hfe
    cases hfe
    exact hne

/-- C6 (confirmed): after a cancellation is observed, the progress map
returned by `lastRuns` has no entry for the category and the in-memory
record is gone; a subsequent Start of the category (fetching `items`) is
accepted, spawns a task, and its first tick plays index 0; and
`deleteLastRun` is idempotent, so clearing an absent record succeeds
silently as the same single store update. -/
theorem C6_cancel_resets (p d : Bool) (category : String) (s : AppState)
    (items : List Item) (h0 : items.length ≠ 0)
    (hfetch : categoryItems (runLoop category [.cancel] s).state.store category =
      .ok items) :
    (∀ x ∈ lastRuns (runLoop category [.cancel] s).state.store, x.1 ≠ category) ∧
    lookupKey category (runLoop category [.cancel] s).state.lastRunStatuses = none ∧
    (startButton category (runLoop category [.cancel] s).state).2 =
      .started .taskStarted ∧
    (showReminder p d category
        (startButton category (runLoop category [.cancel] s).state).1).events =
      [.setMem category 0, .persist category 0,
       .display category (items.getD 0 defaultItem) d] ∧
    deleteLastRun category (deleteLastRun category s.store) =
      deleteLastRun category s.store := by
  have hsc : (runLoop category [.cancel] s).state = killReminder category s := rfl
  have hact : lookupKey category (killReminder category s).activeReminders = none :=
    lookupKey_eraseKey_self category s.activeReminders
  have hmem : lookupKey category (killReminder category s).lastRunStatuses = none :=
    lookupKey_eraseKey_self category s.lastRunStatuses
  rw [hsc] at hfetch ⊢
  have hsb : startButton category (killReminder category s) =
      ({ killReminder category s with
          activeReminders :=
            putMem category items (killReminder category s).activeReminders },
        .started (startTimer category
          { killReminder category s with
            activeReminders :=
              putMem category items (killReminder category s).activeReminders })) := by
    simp only [startButton, hact, hfetch]
  refine ⟨fun x hx => lastRuns_deleteLastRun_ne hx, hmem, ?_, ?_, ?_⟩
  · rw [hsb]
    simp only [startTimer, lookupKey_putMem_self, hmem, Option.getD_none]
    rw [if_neg h0]
    have : (items.length : Int) - (-1) - 1 ≠ 0 := by
      have := Nat.pos_of_ne_zero h0
      omega
    rw [if_neg this]
  · rw [hsb]
    have h1 : (lookupKey category
        ({ killReminder category s with
            activeReminders :=
              putMem category items (killReminder category s).activeReminders } :
          AppState).lastRunStatuses).getD (-1) + 1 < (items.length : Int) := by
      rw [hmem]
      have := Nat.pos_of_ne_zero h0
      simp
      omega
    have hfire := showReminder_fires p d
      (lookupKey_putMem_self category items (killReminder category s).activeReminders)
      h0 h1
    rw [hfire, hmem]
    simp
  · simp only [deleteLastRun]
    simp [eraseKey_idem]

/-- A running category with progress 0, items ingested, used to exercise
Cancel followed by Start. -/
def cancelDemoState : AppState :=
  ⟨[("quotes", [⟨"a1", "text", "x"⟩, ⟨"b2", "text", "y"⟩, ⟨"c3", "text", "z"⟩])],
   [("quotes", 0)],
   ⟨resumeDemoStore.categories, some [("quotes", "0")]⟩⟩

/-- C6 witness: cancel on the concrete state, then Start again: the
record is gone and playback restarts at item index 0. -/
theorem C6_cancel_resets_witness :
    categoryItems (runLoop "quotes" [.cancel] cancelDemoState).state.store "quotes" =
      .ok [⟨"a1", "text", "x"⟩, ⟨"b2", "text", "y"⟩, ⟨"c3", "text", "z"⟩] ∧
    lookupKey "quotes"
      (runLoop "quotes" [.cancel] cancelDemoState).state.lastRunStatuses = none ∧
    (startButton "quotes" (runLoop "quotes" [.cancel] cancelDemoState).state).2 =
      .started .taskStarted ∧
    (showReminder true true "quotes"
        (startButton "quotes" (runLoop "quotes" [.cancel] cancelDemoState).state).1).events =
      [.setMem "quotes" 0, .persist "quotes" 0,
       .display "quotes" ⟨"a1", "text", "x"⟩ true] := by
  have h := C6_cancel_resets true true "quotes" cancelDemoState
    [⟨"a1", "text", "x"⟩, ⟨"b2", "text", "y"⟩, ⟨"c3", "text", "z"⟩] (by decide) rfl
  exact ⟨rfl, h.2.1, h.2.2.1, h.2.2.2.1⟩

/-! ### Claim C7: failure of display or persistence never stops the task -/

/-- C7 (confirmed): the result of a tick is independent of the display
outcome — same state, same continue/stop decision, same number of items
counted as displayed — and a persistence failure affects only the stored
bytes: the in-memory cursor, the active set, the effects and the
continue/stop decision are the same whether or not `saveLastRun`
succeeded, so the cursor is never rolled back and the task proceeds. -/
theorem C7_failures_do_not_stop (p p2 d d2 : Bool) (category : String) (s : AppState) :
    (showReminder p d category s).state = (showReminder p d2 category s).state ∧
    (showReminder p d category s).hasMore = (showReminder p d2 category s).hasMore ∧
    (showReminder p d category s).events.countP Event.isDisplay =
      (showReminder p d2 category s).events.countP Event.isDisplay ∧
    (showReminder p d category s).state.lastRunStatuses =
      (showReminder p2 d category s).state.lastRunStatuses ∧
    (showReminder p d category s).state.activeReminders =
      (showReminder p2 d category s).state.activeReminders ∧
    (showReminder p d category s).hasMore = (showReminder p2 d category s).hasMore ∧
    (showReminder p d category s).events = (showReminder p2 d category s).events := by
  by_cases hf : tickFires category s
  · obtain ⟨items, hit, h0, h1⟩ := hf
    rw [showReminder_fires p d hit h0 h1, showReminder_fires p d2 hit h0 h1,
      showReminder_fires p2 d hit h0 h1]
    exact ⟨rfl, rfl, rfl, rfl, rfl, rfl, rfl⟩
  · rw [showReminder_stuck p d hf, showReminder_stuck p d2 hf,
      showReminder_stuck p2 d hf]
    exact ⟨rfl, rfl, rfl, rfl, rfl, rfl, rfl⟩

/-! ### Claim C8: Start on a running or empty category -/

/-- A store holding one ingested category with zero items. -/
def emptyCatStore : Store := ingestCatalog [⟨"empty", []⟩] emptyStore

/-- Fresh state over that store: nothing active, nothing played. -/
def emptyCatState : AppState := ⟨[], [], emptyCatStore⟩

/-- C8 counterexample: Start on a zero-item category is NOT a no-op.  It
spawns no task, but line 131 of app.go registers the category in
`activeReminders` before `startTimer` bails out, so the state changes and
a second Start is rejected as "Already running". -/
theorem C8_noop_counterexample :
    (startButton "empty" emptyCatState).2 = .started .noTask ∧
    (startButton "empty" emptyCatState).1 ≠ emptyCatState ∧
    lookupKey "empty" (startButton "empty" emptyCatState).1.activeReminders =
      some [] ∧
    (startButton "empty" ((startButton "empty" emptyCatState).1)).2 =
      .rejectedRunning := by
  decide

/-- C8 (amended): Start on an already-running category is a pure no-op
(state unchanged, rejected).  Start on a zero-item category spawns no
task, displays nothing and creates no progress record — but it is not a
no-op: the category is registered (with an empty snapshot) in the
in-memory active set, so a subsequent Start is rejected as already
running. -/
theorem C8_empty_start_leaves_residue (category : String) (s : AppState) :
    (∀ items, lookupKey category s.activeReminders = some items →
      startButton category s = (s, .rejectedRunning)) ∧
    (lookupKey category s.activeReminders = none →
      categoryItems s.store category = .ok [] →
      (startButton category s).2 = .started .noTask ∧
      (startButton category s).1.lastRunStatuses = s.lastRunStatuses ∧
      (startButton category s).1.store = s.store ∧
      lookupKey category (startButton category s).1.activeReminders = some [] ∧
      (startButton category ((startButton category s).1)).2 = .rejectedRunning) := by
  constructor
  · intro items hit
    simp only [startButton, hit]
  · intro hnone hok
    have hsb : startButton category s =
        ({ s with activeReminders := putMem category [] s.activeReminders },
          .started (startTimer category
            { s with activeReminders := putMem category [] s.activeReminders })) := by
      simp only [startButton, hnone, hok]
    rw [hsb]
    refine ⟨?_, rfl, rfl, lookupKey_putMem_self category [] s.activeReminders, ?_⟩
    · simp only [startTimer, lookupKey_putMem_self]
      rfl
    · simp only [startButton, lookupKey_putMem_self]

/-- C8 witness: both behaviours at the concrete zero-item category. -/
theorem C8_empty_start_leaves_residue_witness :
    lookupKey "empty" emptyCatState.activeReminders = none ∧
    categoryItems emptyCatState.store "empty" = .ok [] ∧
    (startButton "empty" emptyCatState).2 = .started .noTask ∧
    lookupKey "empty" (startButton "empty" emptyCatState).1.activeReminders =
      some [] ∧
    (startButton "empty" ((startButton "empty" emptyCatState).1)).2 =
      .rejectedRunning := by
  have h := (C8_empty_start_leaves_residue "empty" emptyCatState).2 rfl rfl
  exact ⟨rfl, rfl, h.1, h.2.2.2.1, h.2.2.2.2⟩

/-! ### Claim C9: immediate start whose first display is the last item -/

theorem lookupKey_putS_self {α : Type} (k : String) (v : α) (l : List (String × α)) :
    lookupKey k (putS k v l) = some v := by
  induction l with
  | nil => simp [putS, lookupKey]
  | cons e rest ih =>
    obtain ⟨k2, v2⟩ := e
    by_cases h1 : strLt k k2
    · simp [putS, if_pos h1, lookupKey]
    · by_cases h2 : k = k2
      · simp [putS, if_neg h1, if_pos h2, lookupKey]
      · simp only [putS, if_neg h1, if_neg h2, lookupKey]
        rw [if_neg (fun hh => h2 hh.symm)]
        exact ih

/-- C9 (confirmed): when `Start` runs with `immediate = true` and the
synchronous first display shows the category's last item (the cursor was
at len-2), `showReminder` returns false and the goroutine returns at
line 199, BEFORE the deferred cleanup of lines 202-205 is registered: no
`killReminder` runs, the category stays in the active set, the advanced
cursor stays in memory and in the store, and a subsequent Start is
rejected as already running.  No input of the later schedule is ever
consumed. -/
theorem C9_immediate_exhaust_no_cleanup (d : Bool) (category : String)
    (s : AppState) (items : List Item) (script : List LoopInput)
    (hit : lookupKey category s.activeReminders = some items)
    (hlen : items.length ≠ 0)
    (hlast : (lookupKey category s.lastRunStatuses).getD (-1) =
      (items.length : Int) - 2) :
    (runTask true true d category script s).status = .exitedNoCleanup ∧
    lookupKey category
      (runTask true true d category script s).state.activeReminders = some items ∧
    lookupKey category
      (runTask true true d category script s).state.lastRunStatuses =
      some ((items.length : Int) - 1) ∧
    lookupKey category
      ((runTask true true d category script s).state.store.lastRun.getD []) =
      some (toString ((items.length : Int) - 1)) ∧
    (startButton category (runTask true true d category script s).state).2 =
      .rejectedRunning := by
  have h1 : (lookupKey category s.lastRunStatuses).getD (-1) + 1 <
      (items.length : Int) := by omega
  have hfire := showReminder_fires true d hit hlen h1
  have hn : (lookupKey category s.lastRunStatuses).getD (-1) + 1 =
      (items.length : Int) - 1 := by omega
  rw [hn] at hfire
  have hz : (items.length : Int) - ((items.length : Int) - 1) - 1 = 0 := by ring
  rw [hz] at hfire
  have hrt : runTask true true d category script s =
      ⟨(showReminder true d category s).state,
        (showReminder true d category s).events, .exitedNoCleanup⟩ := by
    simp only [runTask, if_pos rfl, hfire]
    rfl
  rw [hrt, hfire]
  refine ⟨rfl, hit, ?_, ?_, ?_⟩
  · exact lookupKey_putMem_self category _ s.lastRunStatuses
  · simp only [saveLastRun, if_pos rfl, Option.getD_some]
    exact lookupKey_putS_self category _ (s.store.lastRun.getD [])
  · simp only [startButton, hit]

/-- Two items with the cursor at 0 (= len - 2): the next display is the
last item. -/
def immediateDemoState : AppState :=
  ⟨[("quotes", [⟨"q1", "text", "one"⟩, ⟨"q2", "text", "two"⟩])], [("quotes", 0)],
   ⟨none, some [("quotes", "0")]⟩⟩

/-- C9 witness: the leak at the concrete two-item category. -/
theorem C9_immediate_exhaust_no_cleanup_witness :
    lookupKey "quotes" immediateDemoState.activeReminders =
      some [⟨"q1", "text", "one"⟩, ⟨"q2", "text", "two"⟩] ∧
    (lookupKey "quotes" immediateDemoState.lastRunStatuses).getD (-1) =
      ((List.length [(⟨"q1", "text", "one"⟩ : Item),
        ⟨"q2", "text", "two"⟩] : Nat) : Int) - 2 ∧
    (runTask true true true "quotes" [] immediateDemoState).status =
      .exitedNoCleanup ∧
    (startButton "quotes"
        (runTask true true true "quotes" [] immediateDemoState).state).2 =
      .rejectedRunning := by
  have h := C9_immediate_exhaust_no_cleanup true "quotes" immediateDemoState
    [⟨"q1", "text", "one"⟩, ⟨"q2", "text", "two"⟩] [] rfl (by decide) (by decide)
  exact ⟨rfl, by decide, h.1, h.2.2.2.2⟩

/-! ### Claim C10: lastRuns tolerates malformed persisted values -/

theorem nodupKeys_eq {α : Type} {l : List (String × α)}
    (h : (l.map Prod.fst).Nodup) {c : String} {v w : α}
    (h1 : (c, v) ∈ l) (h2 : (c, w) ∈ l) : v = w := by
  induction l with
  | nil => cases h1
  | cons e rest ih =>
    simp only [List.map_cons, List.nodup_cons] at h
    rcases List.mem_cons.mp h1 with hh1 | hh1
    · rcases List.mem_cons.mp h2 with hh2 | hh2
      · have heq : (c, v) = ((c, w) : String × α) := hh1.trans hh2.symm
        injection heq with ha hb
      · exfalso
        apply h.1
        rw [← hh1]
        simpa using List.mem_map_of_mem Prod.fst hh2
    · rcases List.mem_cons.mp h2 with hh2 | hh2
      · exfalso
        apply h.1
        rw [← hh2]
        simpa using List.mem_map_of_mem Prod.fst hh1
      · exact ih h.2 hh1 hh2

/-- C10 (confirmed): `lastRuns` never fails on a malformed persisted
value.  For any persisted `last_run` bucket with distinct keys: every
entry whose value parses as a decimal integer lands in the returned map;
an entry whose value does not parse contributes nothing for its category
(it is silently skipped, app.go db.go lines 156-161); and everything in
the returned map comes from an entry whose value parses.  The function is
total by construction: it returns a map for every bucket. -/
theorem C10_lastRuns_skips_malformed (bucket : List (String × String))
    (hnd : (bucket.map Prod.fst).Nodup) :
    (∀ c v i, (c, v) ∈ bucket → atoi v = some i →
      (c, i) ∈ lastRuns ⟨none, some bucket⟩) ∧
    (∀ c v, (c, v) ∈ bucket → atoi v = none →
      ∀ i, (c, i) ∉ lastRuns ⟨none, some bucket⟩) ∧
    (∀ x ∈ lastRuns ⟨none, some bucket⟩,
      ∃ v, (x.1, v) ∈ bucket ∧ atoi v = some x.2) := by
  refine ⟨?_, ?_, ?_⟩
  · intro c v i hmem ha
    simp only [lastRuns]
    exact List.mem_filterMap.mpr ⟨(c, v), hmem, by rw [ha]; rfl⟩
  · intro c v hmem ha i hin
    simp only [lastRuns] at hin
    obtain ⟨e, he, hfe⟩ := List.mem_filterMap.mp hin
    obtain ⟨e1, e2⟩ := e
    cases hae : atoi e2 with
    | none =>
      rw [hae] at hfe
      cases hfe
    | some j =>
      rw [hae] at hfe
      simp at hfe
      have hcv : (c, e2) ∈ bucket := by
        rw [← hfe.1]
        exact he
      have hv : v = e2 := nodupKeys_eq hnd hmem hcv
      rw [hv, hae] at ha
      cases ha
  · intro x hx
    obtain ⟨x1, x2⟩ := x
    simp only [lastRuns] at hx
    obtain ⟨e, he, hfe⟩ := List.mem_filterMap.mp hx
    cases hae : atoi e.2 with
    | none =>
      rw [hae] at hfe
      cases hfe
    | some j =>
      rw [hae] at hfe
      simp at hfe
      refine ⟨e.2, ?_, ?_⟩
      · rw [← hfe.1]
        simpa using he
      · rw [hae, hfe.2]

/-- A persisted progress bucket holding two well-formed values and one
malformed value. -/
def lastRunDemoBucket : List (String × String) := [("a", "3"), ("b", "x"), ("c", "-2")]

/-- C10 witness: the malformed entry for "b" is skipped, both well-formed
entries are still returned. -/
theorem C10_lastRuns_skips_malformed_witness :
    (lastRunDemoBucket.map Prod.fst).Nodup ∧
    ("a", (3 : Int)) ∈ lastRuns ⟨none, some lastRunDemoBucket⟩ ∧
    ("c", (-2 : Int)) ∈ lastRuns ⟨none, some lastRunDemoBucket⟩ ∧
    ∀ i, ("b", i) ∉ lastRuns ⟨none, some lastRunDemoBucket⟩ := by
  have h := C10_lastRuns_skips_malformed lastRunDemoBucket (by decide)
  exact ⟨by decide, h.1 "a" "3" 3 (by decide) rfl, h.1 "c" "-2" (-2) (by decide) rfl,
    fun i => h.2.1 "b" "x" (by decide) rfl i⟩
